import Mathlib

/-!
Verification development for the Obsidian-markdown-to-LaTeX compiler
(`obsidian_latex.py`).  The source program is embedded shallowly: text is
`List Char`, Python sets are lists used up to membership, and every regular
expression of the source is replaced by an explicit, executable scanner that
reproduces the regex's matching (including greedy/lazy behaviour and the
left-to-right, no-rescan semantics of `re.sub`).

Modelling conventions, used throughout:
- files on disk are a `Vault`, an association list from note name to file
  content; `find_file` returns the first entry whose name matches, which
  models the source's root-first, then recursive-glob search (the traversal
  order over the directory tree is folded into the list order);
- the multiline-anchored patterns (`^...$` with `re.MULTILINE`) are applied
  per line after splitting on a newline; a whitespace run `\s+` that crosses
  a newline (a line holding only marker characters with the rest of the
  match on a later line) is not modelled, no claim exercises such input;
- mutation of `CompilationStats` and of the parser's duplicate set is
  explicit state passing.
-/

/-- Python `\s` on ASCII input: the six whitespace characters. -/
def isPySpace (c : Char) : Bool :=
  c = ' ' || c = '\t' || c = '\n' || c = '\r' || c = '\x0b' || c = '\x0c'

/-- Python `str.strip()`: remove leading and trailing whitespace. -/
def pyStrip (s : List Char) : List Char :=
  ((s.dropWhile isPySpace).reverse.dropWhile isPySpace).reverse

/-- Python `str.split(sep)` for a one-character separator: `n` separators
give `n + 1` (possibly empty) pieces. -/
def splitOnChar (sep : Char) : List Char → List (List Char)
  | [] => [[]]
  | c :: cs =>
    if c = sep then [] :: splitOnChar sep cs
    else
      match splitOnChar sep cs with
      | [] => [[c]]
      | h :: t => (c :: h) :: t

/-- Python `sep.join(pieces)`. -/
def joinWith (sep : List Char) : List (List Char) → List Char
  | [] => []
  | [x] => x
  | x :: y :: t => x ++ sep ++ joinWith sep (y :: t)

/-- `content.split('\n')` of the source. -/
def splitLines (s : List Char) : List (List Char) := splitOnChar '\n' s

/-- `'\n'.join(lines)` of the source. -/
def joinLines (lines : List (List Char)) : List Char := joinWith ['\n'] lines

/-- Decimal rendering of a line number, as Python string interpolation does. -/
def natChars (n : Nat) : List Char := (Nat.repr n).data

/-- Python `str.replace(old, new)` for one-character old and new. -/
def pyReplace (old new : Char) (s : List Char) : List Char :=
  s.map (fun c => if c = old then new else c)

/-- Python `str.replace(' ', '%20')` used for Obsidian URIs. -/
def spaceEncode (s : List Char) : List Char :=
  (s.map (fun c => if c = ' ' then "%20".data else [c])).flatten

/-- Python `set.add`: a list used as a set, adding only when absent. -/
def addToSet (x : List Char) (l : List (List Char)) : List (List Char) :=
  if x ∈ l then l else x :: l

/-- Python `dict` lookup where later bindings overwrite earlier ones. -/
def dictGet (k : List Char) (d : List (List Char × List Char)) : Option (List Char) :=
  d.foldl (fun acc p => if p.1 = k then some p.2 else acc) none

/-- Normalise an optional string the way Python truthiness does: an empty
string behaves like `None` in every `if section:` / `if display:` test of
the source. -/
def optNorm : Option (List Char) → Option (List Char)
  | none => none
  | some s => if s = [] then none else some s

/-- `CompilationStats` of the source (lines 19-29): embedded file names,
processed-section counter, copied image names, internal-link counter and
the ordered warning list.  The Python sets are lists used up to
membership. -/
structure CompilationStats where
  files_embedded : List (List Char)
  sections_processed : Nat
  images_copied : List (List Char)
  internal_links : Nat
  warnings : List (List Char)
deriving DecidableEq, Repr

/-- `CompilationStats.add_warning` (line 28). -/
def addWarning (s : CompilationStats) (m : List Char) : CompilationStats :=
  { s with warnings := s.warnings ++ [m] }

/-- A fresh `CompilationStats()` as built at the start of a compilation. -/
def stats0 : CompilationStats := ⟨[], 0, [], 0, []⟩

/-- The fields of `Config` (lines 45-59) that the translation core reads,
plus the filesystem the converter consults: `attachments` is the set of
file names present under the attachments folder. -/
structure Config where
  vault_name : List Char
  obsidian_uri : Bool
  vault_path : List Char
  attachments : List (List Char)
deriving DecidableEq, Repr

/-- State of `ObsidianParser` (lines 62-68): the duplicate-tracking set of
embed keys and the shared statistics object. -/
structure ParserState where
  embedded_files : List (List Char)
  stats : CompilationStats
deriving DecidableEq, Repr

/-- State of `LatexConverter` (lines 221-230): shared statistics, the label
counter, and `section_labels` (which the source never writes to). -/
structure ConvState where
  stats : CompilationStats
  label_counter : Nat
  section_labels : List (List Char × List Char)
deriving DecidableEq, Repr

/-- The vault: note name ↦ file content.  `find_file` takes the first
match, modelling the source's root-first then recursive search. -/
def Vault := List (List Char × List Char)

/-- `ObsidianParser._find_file` (lines 177-188): first vault entry whose
name matches, as an association-list lookup. -/
def find_file (vault : Vault) (filename : List Char) : Option (List Char) :=
  (List.find? (fun p => p.1 == filename) vault).map (fun p => p.2)

/-- Index of the first occurrence of `pat` in `s`, modelling
`str.index`. -/
def findSub (pat : List Char) : List Char → Option Nat
  | [] => if pat = [] then some 0 else none
  | c :: cs =>
    if pat.isPrefixOf (c :: cs) then some 0
    else (findSub pat cs).map (fun n => n + 1)

/-- The frontmatter removal of `ObsidianParser.read_file` (lines 79-87): if
the content starts with `---\n`, drop everything through the next
`\n---\n`.  The YAML parse of the dropped block is not modelled: on a YAML
error the source keeps the whole content, but no claim involves
frontmatter at all. -/
def stripFrontmatter (content : List Char) : List Char :=
  if content.take 4 = "---\n".data then
    match findSub "\n---\n".data (content.drop 4) with
    | some i => content.drop (4 + i + 5)
    | none => content
  else content

/-- The tail of the heading regexes: `\s+(.+)$` applied to `rest`.  Needs at
least one whitespace character, then the greedy `(.+)` is the remainder
with its leading whitespace removed; when the remainder is all whitespace
the lazy backtracking leaves exactly the last character as the group. -/
def parseAfterWs (rest : List Char) : Option (List Char) :=
  if rest.takeWhile isPySpace = [] then none
  else if rest.dropWhile isPySpace ≠ [] then some (rest.dropWhile isPySpace)
  else if 2 ≤ rest.length then (rest.getLast?).map (fun c => [c])
  else none

/-- `\s*(.+)$` applied to `rest` (footnote definitions). -/
def parseAfterWsStar (rest : List Char) : Option (List Char) :=
  if rest.dropWhile isPySpace ≠ [] then some (rest.dropWhile isPySpace)
  else if 1 ≤ rest.length then (rest.getLast?).map (fun c => [c])
  else none

/-- The heading pattern `^(#{1,6})\s+(.+)$` applied to one line: a run of
one to six `#` (a run of seven or more never matches, the required
whitespace cannot follow a shorter prefix of it), at least one whitespace
character, then the title group.  Returns (rank, raw title group). -/
def parseHeading (line : List Char) : Option (Nat × List Char) :=
  if 1 ≤ (line.takeWhile (fun c => c = '#')).length ∧
      (line.takeWhile (fun c => c = '#')).length ≤ 6 then
    (parseAfterWs (line.dropWhile (fun c => c = '#'))).map
      (fun t => ((line.takeWhile (fun c => c = '#')).length, t))
  else none

/-- The body of `replace_heading` inside `demote_headings` (lines 127-131):
clamp the new rank at six and rebuild the line with a single separating
space. -/
def demoteLine (levels : Nat) (line : List Char) : List Char :=
  match parseHeading line with
  | some (n, title) => List.replicate (min (n + levels) 6) '#' ++ ' ' :: title
  | none => line

/-- `ObsidianParser.demote_headings` (lines 125-133): the multiline heading
substitution, applied per line. -/
def demote_headings (content : List Char) (levels : Nat) : List Char :=
  joinLines ((splitLines content).map (demoteLine levels))

/-- Phase one of the `extract_section` loop (lines 98-110): skip lines until
the first heading whose stripped title equals the target, returning its
rank and the remaining lines. -/
def extractAfter (target : List Char) : List (List Char) → Option (Nat × List (List Char))
  | [] => none
  | line :: rest =>
    match parseHeading line with
    | some (lvl, title) =>
      if pyStrip title = target then some (lvl, rest) else extractAfter target rest
    | none => extractAfter target rest

/-- Phase two of the `extract_section` loop (lines 112-117): collect lines
until a heading of equal or higher rank. -/
def takeSection (lvl : Nat) : List (List Char) → List (List Char)
  | [] => []
  | line :: rest =>
    match parseHeading line with
    | some (l, _) => if l ≤ lvl then [] else line :: takeSection lvl rest
    | none => line :: takeSection lvl rest

/-- `ObsidianParser.extract_section` (lines 91-123): the matched heading
line itself is dropped, nested deeper headings are kept, and a missing
target yields `none` plus a recorded warning. -/
def extract_section (content : List Char) (section_name : List Char)
    (stats : CompilationStats) : Option (List Char) × CompilationStats :=
  match extractAfter section_name (splitLines content) with
  | none =>
    (none, addWarning stats ("Section \x27".data ++ section_name ++ "\x27 not found".data))
  | some (lvl, rest) => (some (joinLines (takeSection lvl rest)), stats)

/-- The embed reference pattern `!\[\[([^\]#]+)(?:#([^\]]+))?\]\]` of
`resolve_embed` (line 138), via `re.match` (anchored prefix match):
returns (filename group, optional section group). -/
def parseEmbedRef (s : List Char) : Option (List Char × Option (List Char)) :=
  match s with
  | '!' :: '[' :: '[' :: rest =>
    if rest.takeWhile (fun c => c != ']' && c != '#') = [] then none
    else
      match rest.dropWhile (fun c => c != ']' && c != '#') with
      | c1 :: r1 =>
        if c1 = ']' then
          match r1 with
          | c2 :: _ =>
            if c2 = ']' then some (rest.takeWhile (fun c => c != ']' && c != '#'), none)
            else none
          | [] => none
        else if c1 = '#' then
          if r1.takeWhile (fun c => c != ']') = [] then none
          else
            match r1.dropWhile (fun c => c != ']') with
            | d1 :: d2 :: _ =>
              if d1 = ']' ∧ d2 = ']' then
                some (rest.takeWhile (fun c => c != ']' && c != '#'),
                  some (r1.takeWhile (fun c => c != ']')))
              else none
            | _ => none
        else none
      | [] => none
  | _ => none

/-- `ObsidianParser.resolve_embed` (lines 135-175).  The
`current_heading_level` argument is accepted and ignored exactly as the
source does.  Branch order follows the source: parse failure returns the
match text; a duplicate key warns and substitutes empty text; otherwise
the key and file name are recorded, then a missing file warns and yields
the missing-file marker; a requested section is extracted (a failure
yields the missing-section marker, the warning having been recorded by
`extract_section`); on success the content is demoted one level and the
section counter incremented. -/
def resolve_embed (vault : Vault) (embed_match : List Char)
    (current_heading_level : Nat) (line_num : Nat) (ps : ParserState) :
    List Char × ParserState :=
  match parseEmbedRef embed_match with
  | none => (embed_match, ps)
  | some (fn0, sec0) =>
    let filename := pyStrip fn0
    let sec := optNorm (sec0.map pyStrip)
    let embed_key :=
      match sec with
      | some s => filename ++ '#' :: s
      | none => filename
    let dupMsg := "Duplicate embed skipped: ".data ++ embed_key ++ " (line ".data ++
      natChars line_num ++ ")".data
    let missMsg := "Missing file: ".data ++ filename ++ ".md (line ".data ++
      natChars line_num ++ ")".data
    if embed_key ∈ ps.embedded_files then
      (([] : List Char), { ps with stats := addWarning ps.stats dupMsg })
    else
      let ps1 : ParserState :=
        { embedded_files := embed_key :: ps.embedded_files
          stats := { ps.stats with files_embedded := addToSet filename ps.stats.files_embedded } }
      match find_file vault filename with
      | none =>
        ("[MISSING: ".data ++ filename ++ "]".data,
         { ps1 with stats := addWarning ps1.stats missMsg })
      | some content0 =>
        let content1 := stripFrontmatter content0
        match sec with
        | some s =>
          match extract_section content1 s ps1.stats with
          | (none, stats2) =>
            ("[MISSING SECTION: ".data ++ filename ++ "#".data ++ s ++ "]".data,
             { ps1 with stats := stats2 })
          | (some c, stats2) =>
            (demote_headings c 1,
             { ps1 with stats := { stats2 with sections_processed := stats2.sections_processed + 1 } })
        | none =>
          (demote_headings content1 1,
           { ps1 with stats := { ps1.stats with sections_processed := ps1.stats.sections_processed + 1 } })

/-- The embed token pattern `!\[\[[^\]]+\]\]` of `process_embeds`
(line 205), tried at the head of `s`: the bracket interior is the maximal
run of non-`]` characters, which must be nonempty and be followed by
`]]`.  Returns (full matched text, remainder). -/
def matchEmbedAt : List Char → Option (List Char × List Char)
  | '!' :: '[' :: '[' :: rest =>
    let inner := rest.takeWhile (fun c => c != ']')
    if inner = [] then none
    else
      match rest.dropWhile (fun c => c != ']') with
      | ']' :: ']' :: tail => some ('!' :: '[' :: '[' :: (inner ++ [']', ']']), tail)
      | _ => none
  | _ => none

/-- `re.search` of the embed pattern on one line (the guard at
line 207). -/
def hasEmbedToken : Nat → List Char → Bool
  | _, [] => false
  | 0, _ => false
  | fuel + 1, c :: cs =>
    (matchEmbedAt (c :: cs)).isSome || hasEmbedToken fuel cs

/-- Generic left-to-right `re.sub` with a stateful replacement function:
at each position the matcher is tried; on a match the replacement is
emitted and scanning resumes after the matched text (replacements are
never rescanned), otherwise one character is emitted.  The fuel is the
input length; every matcher used consumes at least one character, so the
fuel never runs out. -/
def scanSt {σ : Type} {τ : Type} (tryf : List Char → Option (τ × List Char))
    (act : τ → σ → List Char × σ) : Nat → List Char → σ → List Char × σ
  | _, [], st => ([], st)
  | 0, s, st => (s, st)
  | fuel + 1, c :: cs, st =>
    match tryf (c :: cs) with
    | some (tok, rest) =>
      let p := act tok st
      let q := scanSt tryf act fuel rest p.2
      (p.1 ++ q.1, q.2)
    | none =>
      let q := scanSt tryf act fuel cs st
      (c :: q.1, q.2)

/-- Pure variant of `scanSt` for the stateless rewrites: the matcher
returns the replacement text directly. -/
def scanPure (tryf : List Char → Option (List Char × List Char)) :
    Nat → List Char → List Char
  | _, [] => []
  | 0, s => s
  | fuel + 1, c :: cs =>
    match tryf (c :: cs) with
    | some (rep, rest) => rep ++ scanPure tryf fuel rest
    | none => c :: scanPure tryf fuel cs

/-- `ObsidianParser.get_current_heading_level` (lines 190-196): scan from
index `current_idx - 1` down to zero for the first line matching
`^(#{1,6})\s+`; the source passes the one-based line number here, so the
scan starts at the current line itself. -/
def headingMarkerLevel (l : List Char) : Option Nat :=
  let hashes := l.takeWhile (fun c => c = '#')
  let rest := l.dropWhile (fun c => c = '#')
  if 1 ≤ hashes.length ∧ hashes.length ≤ 6 ∧ rest.takeWhile isPySpace ≠ [] then
    some hashes.length
  else none

/-- Helper for `get_current_heading_level`: first heading level in a list
scanned front to back, defaulting to zero. -/
def firstHeadingLevel : List (List Char) → Nat
  | [] => 0
  | l :: ls =>
    match headingMarkerLevel l with
    | some n => n
    | none => firstHeadingLevel ls

def get_current_heading_level (lines : List (List Char)) (current_idx : Nat) : Nat :=
  firstHeadingLevel (lines.take current_idx).reverse

/-- One line of `process_embeds` (lines 203-216): when the line contains an
embed token, substitute every token left to right through
`resolve_embed`. -/
def processEmbedLine (vault : Vault) (lines : List (List Char)) (line_num : Nat)
    (line : List Char) (ps : ParserState) : List Char × ParserState :=
  if hasEmbedToken line.length line then
    let cur := get_current_heading_level lines line_num
    scanSt matchEmbedAt (fun tok st => resolve_embed vault tok cur line_num st)
      line.length line ps
  else (line, ps)

/-- The enumerated loop of `process_embeds`. -/
def embedsGo (vault : Vault) (lines : List (List Char)) :
    List (List Char) → Nat → ParserState → List (List Char) × ParserState
  | [], _, ps => ([], ps)
  | l :: ls, n, ps =>
    let p := processEmbedLine vault lines n l ps
    let q := embedsGo vault lines ls (n + 1) p.2
    (p.1 :: q.1, q.2)

/-- `ObsidianParser.process_embeds` (lines 198-218). -/
def process_embeds (vault : Vault) (content : List Char) (ps : ParserState) :
    List Char × ParserState :=
  let lines := splitLines content
  let p := embedsGo vault lines lines 1 ps
  (joinLines p.1, p.2)

/-- Python `\w` on ASCII input: letters, digits and underscore. -/
def pyIsWordChar (c : Char) : Bool :=
  c.isAlphanum || c = '_'

/-- Inline footnote pattern `\^\[([^\]]+)\]` (line 305), tried at the head:
replacement `\footnote{...}`. -/
def matchInlineFootnoteAt : List Char → Option (List Char × List Char) :=
  fun s =>
    match s with
    | '^' :: '[' :: rest =>
      let inner := rest.takeWhile (fun c => c != ']')
      if inner = [] then none
      else
        match rest.dropWhile (fun c => c != ']') with
        | ']' :: tail => some ("\\footnote\x7b".data ++ inner ++ "\x7d".data, tail)
        | _ => none
    | _ => none

/-- Footnote definition line `^\[\^(\w+)\]:\s*(.+)$` (line 317), applied to
one line: returns (key, definition text). -/
def parseFootnoteDef (line : List Char) : Option (List Char × List Char) :=
  match line with
  | '[' :: '^' :: rest =>
    let key := rest.takeWhile pyIsWordChar
    if key = [] then none
    else
      match rest.dropWhile pyIsWordChar with
      | ']' :: ':' :: r2 => (parseAfterWsStar r2).map (fun t => (key, t))
      | _ => none
  | _ => none

/-- Footnote reference pattern `\[\^(\w+)\]` (line 326), tried at the head:
a reference with a collected definition becomes `\footnote{...}`, an
unresolved one is emitted unchanged (the source's `return match.group(0)`),
scanning continuing after it either way. -/
def matchFootnoteRefAt (defs : List (List Char × List Char)) :
    List Char → Option (List Char × List Char) :=
  fun s =>
    match s with
    | '[' :: '^' :: rest =>
      let key := rest.takeWhile pyIsWordChar
      if key = [] then none
      else
        match rest.dropWhile pyIsWordChar with
        | ']' :: tail =>
          match dictGet key defs with
          | some txt => some ("\\footnote\x7b".data ++ txt ++ "\x7d".data, tail)
          | none => some ('[' :: '^' :: key ++ [']'], tail)
        | _ => none
    | _ => none

/-- `LatexConverter.convert_footnotes` (lines 302-328): inline footnotes
first, then definition lines are collected into a dictionary (later
definitions overwriting earlier ones) and removed — the substitution
leaves the line itself empty — and finally references are replaced. -/
def convert_footnotes (content : List Char) : List Char :=
  let c1 := scanPure matchInlineFootnoteAt content.length content
  let lines := splitLines c1
  let defs := lines.foldl
    (fun d l => match parseFootnoteDef l with
      | some kv => d ++ [kv]
      | none => d) []
  let lines2 := lines.map (fun l => if (parseFootnoteDef l).isSome then [] else l)
  let c2 := joinLines lines2
  scanPure (matchFootnoteRefAt defs) c2.length c2

/-- Table-line test of `convert_tables` (line 339): `'|' in line and
line.strip().startswith('|')`. -/
def isTableLine (l : List Char) : Bool :=
  l.contains '|' && ((pyStrip l).take 1 = ['|'])

/-- Cell extraction of `_convert_table` (lines 364 and 372):
`line.split('|')[1:-1]`, each cell stripped. -/
def tableCells (l : List Char) : List (List Char) :=
  (((splitOnChar '|' l).drop 1).dropLast).map pyStrip

/-- `LatexConverter._convert_table` (lines 358-389): fewer than two lines
are rejoined unchanged; otherwise the first line is the header, the second
(separator) line is skipped without inspection, and exactly the data rows
whose cell count equals the header's survive. -/
def convertTableBlock : List (List Char) → List Char
  | hd :: _sep :: rows =>
    let header := tableCells hd
    let numCols := header.length
    let dataRows := (rows.map tableCells).filter (fun r => r.length == numCols)
    "\\begin\x7btabular\x7d\x7b".data ++ List.replicate numCols 'l' ++
      "\x7d\n\\hline\n".data ++
      joinWith " & ".data header ++ " \\\\\n\\hline\n".data ++
      (dataRows.map (fun r => joinWith " & ".data r ++ " \\\\\n".data)).flatten ++
      "\\hline\n\\end\x7btabular\x7d".data
  | tl => joinLines tl

/-- The line loop of `convert_tables` (lines 330-356); the second argument
is the current table block (`in_table` is its nonemptiness, which the
source maintains equivalently). -/
def tablesGo : List (List Char) → List (List Char) → List (List Char)
  | [], [] => []
  | [], tl => [convertTableBlock tl]
  | l :: ls, tl =>
    if isTableLine l then tablesGo ls (tl ++ [l])
    else
      match tl with
      | [] => l :: tablesGo ls []
      | _ => convertTableBlock tl :: l :: tablesGo ls []

/-- `LatexConverter.convert_tables`. -/
def convert_tables (content : List Char) : List Char :=
  joinLines (tablesGo (splitLines content) [])

/-- The image extensions of the two image patterns (lines 296-297). -/
def imageExts : List (List Char) :=
  ["png".data, "jpg".data, "jpeg".data, "gif".data, "pdf".data]

/-- Whether `s` ends in `.ext` for one of the image extensions,
case-insensitively, with at least one character before the dot (the
`[^\]]+\.` / `[^)]+\.` part of the patterns). -/
def hasImageExt (s : List Char) : Bool :=
  imageExts.any (fun e =>
    ('.' :: e).isSuffixOf (s.map Char.toLower) && Nat.ble (e.length + 2) s.length)

/-- Image embed pattern `!\[\[([^\]]+\.(png|jpg|jpeg|gif|pdf))\]\]` with
`re.IGNORECASE` (line 296), tried at the head: the bracket interior is the
maximal non-`]` run, which must end in an image extension and be followed
by `]]`.  Returns (interior, remainder). -/
def matchImageEmbedAt : List Char → Option (List Char × List Char) :=
  fun s =>
    match s with
    | '!' :: '[' :: '[' :: rest =>
      let inner := rest.takeWhile (fun c => c != ']')
      if inner = [] || !(hasImageExt inner) then none
      else
        match rest.dropWhile (fun c => c != ']') with
        | ']' :: ']' :: tail => some (inner, tail)
        | _ => none
    | _ => none

/-- Standard image pattern `!\[([^\]]*)\]\(([^)]+\.(png|jpg|jpeg|gif|pdf))\)`
with `re.IGNORECASE` (line 297), tried at the head.  The alt-text group is
discarded by the source's replacement lambda.  Returns (path group,
remainder). -/
def matchImageParenAt : List Char → Option (List Char × List Char) :=
  fun s =>
    match s with
    | '!' :: '[' :: rest =>
      match rest.dropWhile (fun c => c != ']') with
      | ']' :: '(' :: r2 =>
        let path := r2.takeWhile (fun c => c != ')')
        if path = [] || !(hasImageExt path) then none
        else
          match r2.dropWhile (fun c => c != ')') with
          | ')' :: tail => some (path, tail)
          | _ => none
      | _ => none
    | _ => none

/-- `replace_image` inside `convert_images` (lines 274-293): a file absent
from the attachments folder warns and yields the missing-image marker;
otherwise the copy is recorded in `images_copied` (the byte copy itself is
filesystem I/O, modelled by that set) and the include command emitted. -/
def replace_image (cfg : Config) (raw : List Char) (cs : ConvState) :
    List Char × ConvState :=
  let filename := pyStrip raw
  if filename ∈ cfg.attachments then
    ("\\includegraphics[max width=\\textwidth]\x7bimages/".data ++ filename ++ "\x7d".data,
     { cs with stats := { cs.stats with images_copied := addToSet filename cs.stats.images_copied } })
  else
    ("[MISSING IMAGE: ".data ++ filename ++ "]".data,
     { cs with stats := addWarning cs.stats ("Image not found: ".data ++ filename) })

/-- The replacement lambda of the second image substitution (line 298):
`re.match(r'(.+)', path)` keeps only the first line of the path before
handing it to `replace_image`.  (A path beginning with a newline would
make that inner match fail and the source raise; no claim reaches that
corner.) -/
def replace_image_paren (cfg : Config) (path : List Char) (cs : ConvState) :
    List Char × ConvState :=
  replace_image cfg (path.takeWhile (fun c => c != '\n')) cs

/-- `LatexConverter.convert_images` (lines 272-300): the double-bracket
form first, then the standard form on its result. -/
def convert_images (cfg : Config) (content : List Char) (cs : ConvState) :
    List Char × ConvState :=
  let p := scanSt matchImageEmbedAt (replace_image cfg) content.length content cs
  scanSt matchImageParenAt (replace_image_paren cfg) p.1.length p.1 p.2

/-- Wikilink pattern `\[\[([^\]#|]+)(?:#([^\]|]+))?(?:\|([^\]]+))?\]\]`
(line 269), tried at the head: returns ((name group, optional section
group, optional display group), remainder).  The optional groups cannot
backtrack into the name (it excludes `#` and `|`), so a failed optional
part fails the whole position, as with the Python pattern. -/
def matchWikiAt : List Char →
    Option ((List Char × Option (List Char) × Option (List Char)) × List Char) :=
  fun s =>
    match s with
    | '[' :: '[' :: rest =>
      let nm := rest.takeWhile (fun c => c != ']' && c != '#' && c != '|')
      if nm = [] then none
      else
        match rest.dropWhile (fun c => c != ']' && c != '#' && c != '|') with
        | '#' :: r2 =>
          let sec := r2.takeWhile (fun c => c != ']' && c != '|')
          if sec = [] then none
          else
            match r2.dropWhile (fun c => c != ']' && c != '|') with
            | '|' :: r3 =>
              let disp := r3.takeWhile (fun c => c != ']')
              if disp = [] then none
              else
                match r3.dropWhile (fun c => c != ']') with
                | ']' :: ']' :: tail => some ((nm, some sec, some disp), tail)
                | _ => none
            | ']' :: ']' :: tail => some ((nm, some sec, none), tail)
            | _ => none
        | '|' :: r3 =>
          let disp := r3.takeWhile (fun c => c != ']')
          if disp = [] then none
          else
            match r3.dropWhile (fun c => c != ']') with
            | ']' :: ']' :: tail => some ((nm, none, some disp), tail)
            | _ => none
        | ']' :: ']' :: tail => some ((nm, none, none), tail)
        | _ => none
    | _ => none

/-- The external branch of `replace_link` (lines 256-266): an Obsidian URI
when configured, else a `file://` path under the vault. -/
def external_link (cfg : Config) (filename : List Char) (sec : Option (List Char))
    (link_text : List Char) : List Char :=
  if cfg.obsidian_uri then
    let uri := "obsidian://open?vault=".data ++ cfg.vault_name ++ "&file=".data ++
      spaceEncode filename ++
      (match sec with
       | some s => "&heading=".data ++ spaceEncode s
       | none => [])
    "\\href\x7b".data ++ uri ++ "\x7d\x7b".data ++ link_text ++ "\x7d".data
  else
    "\\href\x7bfile://".data ++ cfg.vault_path ++ "/".data ++ filename ++
      ".md\x7d\x7b".data ++ link_text ++ "\x7d".data

/-- `replace_link` inside `convert_wikilinks` (lines 234-266).  Groups are
stripped; Python truthiness makes a stripped-empty section or display act
exactly like an absent one (`optNorm`).  A link is internal when the
section-qualified key or the bare file name is in the embedded-files set;
the label falls back to `sec:` plus the space-to-underscore file name
because `section_labels` is never populated by the source. -/
def replace_link (cfg : Config)
    (tok : List Char × Option (List Char) × Option (List Char))
    (cs : ConvState) : List Char × ConvState :=
  let filename := pyStrip tok.1
  let sec := optNorm (tok.2.1.map pyStrip)
  let display := optNorm (tok.2.2.map pyStrip)
  let link_text :=
    match display, sec with
    | some d, _ => d
    | none, some s => s
    | none, none => filename
  let embed_key :=
    match sec with
    | some s => filename ++ '#' :: s
    | none => filename
  if embed_key ∈ cs.stats.files_embedded ∨ filename ∈ cs.stats.files_embedded then
    let label := (dictGet embed_key cs.section_labels).getD
      ("sec:".data ++ pyReplace ' ' '_' filename)
    ("\\hyperref[".data ++ label ++ "]\x7b".data ++ link_text ++ "\x7d".data,
     { cs with stats := { cs.stats with internal_links := cs.stats.internal_links + 1 } })
  else
    (external_link cfg filename sec link_text, cs)

/-- `LatexConverter.convert_wikilinks` (lines 232-270). -/
def convert_wikilinks (cfg : Config) (content : List Char) (cs : ConvState) :
    List Char × ConvState :=
  scanSt matchWikiAt (replace_link cfg) content.length content cs

/-- `heading_map` of `convert_markdown_to_latex` (lines 406-413), with the
`dict.get(level, 'paragraph')` default. -/
def heading_map (level : Nat) : List Char :=
  match level with
  | 1 => "section".data
  | 2 => "subsection".data
  | 3 => "subsubsection".data
  | 4 => "paragraph".data
  | 5 => "subparagraph".data
  | 6 => "subparagraph".data
  | _ => "paragraph".data

/-- The label transform of `replace_heading` (line 421):
`title.lower().replace(' ', '_')`. -/
def labelTransform (title : List Char) : List Char :=
  pyReplace ' ' '_' (title.map Char.toLower)

/-- The output of `replace_heading` (line 424) for a heading of the given
rank and raw title group. -/
def headingLatex (lvl : Nat) (title : List Char) : List Char :=
  '\\' :: heading_map lvl ++ "\x7b".data ++ title ++
    "\x7d\\label\x7bsec:".data ++ labelTransform title ++ "\x7d".data

/-- One line of the heading substitution (lines 415-426). -/
def convertHeadingLine (line : List Char) : List Char :=
  match parseHeading line with
  | some (lvl, title) => headingLatex lvl title
  | none => line

/-- The heading pass with its `label_counter` increment per heading. -/
def headingsGo : List (List Char) → Nat → List (List Char) × Nat
  | [], k => ([], k)
  | l :: ls, k =>
    match parseHeading l with
    | some (lvl, title) =>
      let q := headingsGo ls (k + 1)
      (headingLatex lvl title :: q.1, q.2)
    | none =>
      let q := headingsGo ls k
      (l :: q.1, q.2)

/-- The heading substitution of `convert_markdown_to_latex` (line 426),
applied per line, threading the label counter. -/
def convert_headings (content : List Char) (cs : ConvState) :
    List Char × ConvState :=
  let p := headingsGo (splitLines content) cs.label_counter
  (joinLines p.1, { cs with label_counter := p.2 })

/-- List item patterns of `_convert_lists` (lines 454-456):
`^(\s*)[-*+]\s+(.+)$` and `^(\s*)\d+\.\s+(.+)$` applied to one line.
Returns (`true` for unordered, item text). -/
def parseListItem (line : List Char) : Option (Bool × List Char) :=
  let r := line.dropWhile isPySpace
  match r with
  | c :: r2 =>
    if c = '-' || c = '*' || c = '+' then
      (parseAfterWs r2).map (fun t => (true, t))
    else
      let ds := r.takeWhile Char.isDigit
      if ds = [] then none
      else
        match r.drop ds.length with
        | '.' :: r3 => (parseAfterWs r3).map (fun t => (false, t))
        | _ => none
  | [] => none

/-- List environment name: `itemize` for unordered, `enumerate` for
ordered. -/
def listEnvName (unordered : Bool) : List Char :=
  if unordered then "itemize".data else "enumerate".data

def listBegin (unordered : Bool) : List Char :=
  "\\begin\x7b".data ++ listEnvName unordered ++ "\x7d".data

def listEnd (unordered : Bool) : List Char :=
  "\\end\x7b".data ++ listEnvName unordered ++ "\x7d".data

def listItemLine (item : List Char) : List Char :=
  "  \\item ".data ++ item

/-- The line loop of `_convert_lists` (lines 445-482): the second argument
is the open list environment, if any; a style change closes and reopens,
a non-list line closes. -/
def listsGo : List (List Char) → Option Bool → List (List Char)
  | [], none => []
  | [], some t => [listEnd t]
  | l :: ls, cur =>
    match parseListItem l, cur with
    | some (ty, item), none => listBegin ty :: listItemLine item :: listsGo ls (some ty)
    | some (ty, item), some t =>
      if ty = t then listItemLine item :: listsGo ls (some t)
      else listEnd t :: listBegin ty :: listItemLine item :: listsGo ls (some ty)
    | none, none => l :: listsGo ls none
    | none, some t => listEnd t :: l :: listsGo ls none

/-- `LatexConverter._convert_lists`. -/
def convert_lists (content : List Char) : List Char :=
  joinLines (listsGo (splitLines content) none)

/-- Lazy closing search for the emphasis patterns `(.+?)` followed by a
delimiter: the group grows one character at a time, never contains a
newline (`.`), and stops at the first position where the delimiter
follows.  Returns (group, text after the delimiter). -/
def findClose (delim : List Char) : List Char → Option (List Char × List Char)
  | [] => none
  | c :: cs =>
    if c = '\n' then none
    else if delim.isPrefixOf cs then some ([c], cs.drop delim.length)
    else (findClose delim cs).map (fun p => (c :: p.1, p.2))

/-- Emphasis matcher for a symmetric delimiter pair (`**`, `*`, `__`, `_`),
tried at the head, wrapping the group in `pre`/`post`. -/
def matchEmphAt (delim pre post : List Char) (s : List Char) :
    Option (List Char × List Char) :=
  if delim.isPrefixOf s then
    match findClose delim (s.drop delim.length) with
    | some p => some (pre ++ p.1 ++ post, p.2)
    | none => none
  else none

/-- The four emphasis substitutions of `convert_markdown_to_latex`
(lines 432-435), in source order: `**`→bold, `*`→italic, `__`→bold,
`_`→italic. -/
def convert_emphasis (content : List Char) : List Char :=
  let c1 := scanPure (matchEmphAt "**".data "\\textbf\x7b".data "\x7d".data)
    content.length content
  let c2 := scanPure (matchEmphAt "*".data "\\textit\x7b".data "\x7d".data)
    c1.length c1
  let c3 := scanPure (matchEmphAt "__".data "\\textbf\x7b".data "\x7d".data)
    c2.length c2
  scanPure (matchEmphAt "_".data "\\textit\x7b".data "\x7d".data) c3.length c3

/-- Inline code pattern `` `([^`]+)` `` (line 438), tried at the head: the
group is the maximal non-backtick run, which must be nonempty and be
followed by a backtick. -/
def matchInlineCodeAt : List Char → Option (List Char × List Char) :=
  fun s =>
    match s with
    | '`' :: rest =>
      let inner := rest.takeWhile (fun c => c != '`')
      if inner = [] then none
      else
        match rest.dropWhile (fun c => c != '`') with
        | '`' :: tail => some ("\\texttt\x7b".data ++ inner ++ "\x7d".data, tail)
        | _ => none
    | _ => none

/-- The inline code substitution (line 438). -/
def convert_inline_code (content : List Char) : List Char :=
  scanPure matchInlineCodeAt content.length content

/-- Lazy closing search for the `re.DOTALL` pattern `(.*?)` followed by a
delimiter: the group may be empty and may contain newlines. -/
def findCloseAny (delim : List Char) : List Char → Option (List Char × List Char)
  | [] => if delim = [] then some ([], []) else none
  | c :: cs =>
    if delim.isPrefixOf (c :: cs) then some ([], (c :: cs).drop delim.length)
    else (findCloseAny delim cs).map (fun p => (c :: p.1, p.2))

/-- Fenced code pattern ```` ```(\w*)\n(.*?)``` ```` with `re.DOTALL`
(line 491), tried at the head: an optional language tag (discarded by the
replacement), a newline, then the lazy interior up to the next triple
backtick. -/
def matchCodeBlockAt : List Char → Option (List Char × List Char) :=
  fun s =>
    if "```".data.isPrefixOf s then
      let r1 := s.drop 3
      match r1.dropWhile pyIsWordChar with
      | '\n' :: r2 =>
        match findCloseAny "```".data r2 with
        | some p =>
          some ("\\begin\x7bverbatim\x7d\n".data ++ p.1 ++ "\n\\end\x7bverbatim\x7d".data, p.2)
        | none => none
      | _ => none
    else none

/-- `LatexConverter._convert_code_blocks` (lines 484-491). -/
def convert_code_blocks (content : List Char) : List Char :=
  scanPure matchCodeBlockAt content.length content

/-- `LatexConverter.convert_markdown_to_latex` (lines 391-443): the fixed
pass order — footnotes, tables, images, wikilinks, headings, lists,
emphasis, inline code, fenced code blocks. -/
def convert_markdown_to_latex (cfg : Config) (content : List Char)
    (cs : ConvState) : List Char × ConvState :=
  let c1 := convert_footnotes content
  let c2 := convert_tables c1
  let p3 := convert_images cfg c2 cs
  let p4 := convert_wikilinks cfg p3.1 p3.2
  let p5 := convert_headings p4.1 p4.2
  let c6 := convert_lists p5.1
  let c7 := convert_emphasis c6
  let c8 := convert_inline_code c7
  (convert_code_blocks c8, p5.2)

/-- The translation core of `compile_document` (lines 681-689): embed
resolution over the master content with fresh parser state, then markdown
translation sharing the same statistics object. -/
def compile_pipeline (vault : Vault) (cfg : Config) (master_content : List Char) :
    List Char × CompilationStats :=
  let p := process_embeds vault master_content ⟨[], stats0⟩
  let q := convert_markdown_to_latex cfg p.1 ⟨p.2.stats, 0, []⟩
  (q.1, q.2.stats)

/-- Declarative reference for section extraction, written from the claim
wording: the lines strictly between the first heading whose (stripped)
title equals the target — matching on title only, any rank — and the next
heading of equal or higher rank, both heading lines excluded; `none` when
no heading title matches. -/
def isHeadingTitled (target l : List Char) : Bool :=
  match parseHeading l with
  | some p => pyStrip p.2 == target
  | none => false

/-- Whether a line is a heading of rank at most `lvl` (the stopping
condition of the declarative section extraction). -/
def stopsSection (lvl : Nat) (l : List Char) : Bool :=
  match parseHeading l with
  | some p => decide (p.1 ≤ lvl)
  | none => false

/-- The declarative section extraction (see `isHeadingTitled`). -/
def extract_section_spec (content target : List Char) : Option (List Char) :=
  match (splitLines content).dropWhile (fun l => !(isHeadingTitled target l)) with
  | [] => none
  | hline :: rest =>
    match parseHeading hline with
    | some p => some (joinLines (rest.takeWhile (fun l => !(stopsSection p.1 l))))
    | none => none

/-- A name that the embed pattern `!\[\[([^\]#]+)...\]\]` parses as its
filename group verbatim: nonempty, already stripped, free of `]` and
`#`. -/
abbrev wfEmbedName (name : List Char) : Prop :=
  name ≠ [] ∧ pyStrip name = name ∧ ∀ c ∈ name, c ≠ ']' ∧ c ≠ '#'

/-- A name that the wikilink pattern parses as its name group verbatim:
additionally free of `|`. -/
abbrev wfLinkName (name : List Char) : Prop :=
  name ≠ [] ∧ pyStrip name = name ∧ ∀ c ∈ name, c ≠ ']' ∧ c ≠ '#' ∧ c ≠ '|'

/-- The embed token `![[name]]`. -/
def mkEmbedTok (name : List Char) : List Char :=
  '!' :: '[' :: '[' :: (name ++ [']', ']'])

/-- The wikilink token `[[name]]`. -/
def mkWikiTok (name : List Char) : List Char :=
  '[' :: '[' :: (name ++ [']', ']'])

/-- A heading line in canonical form: rank markers, one space, title. -/
def mkHeading (m : Nat) (t : List Char) : List Char :=
  List.replicate m '#' ++ ' ' :: t

/-- The shape of every title group produced by the heading pattern: either
nonempty without leading whitespace (the greedy case), or a single
whitespace character (the backtracking case on an all-whitespace
remainder). -/
def goodTitle (t : List Char) : Prop :=
  (t ≠ [] ∧ t.dropWhile isPySpace = t) ∨ (∃ c, isPySpace c = true ∧ t = [c])

/-- The embed token `![[name#sec]]`. -/
def mkEmbedTokSec (name sec : List Char) : List Char :=
  '!' :: '[' :: '[' :: (name ++ '#' :: (sec ++ [']', ']']))

/-- A section string that the embed pattern parses as its section group
verbatim: nonempty, already stripped, free of `]`. -/
abbrev wfSecName (sec : List Char) : Prop :=
  sec ≠ [] ∧ pyStrip sec = sec ∧ ∀ c ∈ sec, c ≠ ']'


theorem splitOnChar_ne_nil (sep : Char) (s : List Char) : splitOnChar sep s ≠ [] := by
  cases s with
  | nil => simp [splitOnChar]
  | cons c cs =>
    by_cases h : c = sep
    · simp [splitOnChar, h]
    · cases hr : splitOnChar sep cs <;> simp [splitOnChar, h, hr]

theorem not_sep_of_mem_splitOnChar (sep : Char) (s : List Char) :
    ∀ x ∈ splitOnChar sep s, sep ∉ x := by
  induction s with
  | nil => intro x hx; simp [splitOnChar] at hx; simp [hx]
  | cons c cs ih =>
    intro x hx
    by_cases h : c = sep
    · simp [splitOnChar, h] at hx
      rcases hx with hx | hx
      · simp [hx]
      · exact ih x hx
    · cases hr : splitOnChar sep cs with
      | nil => exact absurd hr (splitOnChar_ne_nil sep cs)
      | cons hl tl =>
        simp [splitOnChar, h, hr] at hx
        rcases hx with hx | hx
        · subst hx
          intro hmem
          rcases List.mem_cons.mp hmem with h1 | h1
          · exact h h1.symm
          · exact ih hl (by simp [hr]) h1
        · exact ih x (by simp [hr, hx])

theorem joinWith_splitOnChar (sep : Char) (s : List Char) :
    joinWith [sep] (splitOnChar sep s) = s := by
  induction s with
  | nil => simp [splitOnChar, joinWith]
  | cons c cs ih =>
    by_cases h : c = sep
    · cases hr : splitOnChar sep cs with
      | nil => exact absurd hr (splitOnChar_ne_nil sep cs)
      | cons hl tl =>
        subst h
        rw [hr] at ih
        simp [splitOnChar, hr, joinWith, ih]
    · cases hr : splitOnChar sep cs with
      | nil => exact absurd hr (splitOnChar_ne_nil sep cs)
      | cons hl tl =>
        rw [hr] at ih
        cases tl with
        | nil => simp [splitOnChar, h, hr, joinWith] at ih ⊢; simp [ih]
        | cons y t =>
          simp [splitOnChar, h, hr, joinWith] at ih ⊢
          simp [ih]

theorem splitOnChar_single (sep : Char) (x : List Char) (hx : sep ∉ x) :
    splitOnChar sep x = [x] := by
  induction x with
  | nil => simp [splitOnChar]
  | cons c cs ih =>
    have hc : c ≠ sep := fun h => hx (by simp [h])
    have hcs : sep ∉ cs := fun h => hx (by simp [h])
    simp [splitOnChar, hc, ih hcs]

theorem splitOnChar_append_sep (sep : Char) (x rest : List Char) (hx : sep ∉ x) :
    splitOnChar sep (x ++ sep :: rest) = x :: splitOnChar sep rest := by
  induction x with
  | nil => simp [splitOnChar]
  | cons c cs ih =>
    have hc : c ≠ sep := fun h => hx (by simp [h])
    have hcs : sep ∉ cs := fun h => hx (by simp [h])
    have := ih hcs
    cases hr : splitOnChar sep (cs ++ sep :: rest) with
    | nil => exact absurd hr (splitOnChar_ne_nil sep _)
    | cons hl tl =>
      rw [hr] at this
      simp only [List.cons_append, splitOnChar, if_neg hc, List.append_eq, hr]
      rw [List.cons.injEq] at this ⊢
      exact ⟨by rw [this.1], this.2⟩

theorem splitOnChar_joinWith (sep : Char) (xs : List (List Char))
    (hne : xs ≠ []) (hsep : ∀ x ∈ xs, sep ∉ x) :
    splitOnChar sep (joinWith [sep] xs) = xs := by
  induction xs with
  | nil => exact absurd rfl hne
  | cons x t ih =>
    cases t with
    | nil =>
      simp only [joinWith]
      exact splitOnChar_single sep x (hsep x (by simp))
    | cons y t2 =>
      have h1 : joinWith [sep] (x :: y :: t2) = x ++ sep :: joinWith [sep] (y :: t2) := by
        simp [joinWith]
      rw [h1, splitOnChar_append_sep sep x _ (hsep x (by simp))]
      rw [ih (by simp) (fun z hz => hsep z (by simp [hz]))]

theorem splitLines_joinLines (xs : List (List Char)) (hne : xs ≠ [])
    (h : ∀ x ∈ xs, '\n' ∉ x) : splitLines (joinLines xs) = xs :=
  splitOnChar_joinWith '\n' xs hne h

theorem mem_of_parseAfterWs (rest t : List Char) (h : parseAfterWs rest = some t) :
    ∀ c ∈ t, c ∈ rest := by
  unfold parseAfterWs at h
  by_cases h1 : rest.takeWhile isPySpace = []
  · simp [h1] at h
  · rw [if_neg h1] at h
    by_cases h2 : rest.dropWhile isPySpace = []
    · rw [if_neg (by simp [h2])] at h
      by_cases h3 : 2 ≤ rest.length
      · rw [if_pos h3] at h
        cases hg : rest.getLast? with
        | none => rw [hg] at h; simp at h
        | some c =>
          rw [hg] at h
          simp only [Option.map_some'] at h
          intro a ha
          rw [← Option.some_inj.mp h] at ha
          simp at ha
          subst ha
          exact List.mem_of_mem_getLast? hg
      · rw [if_neg h3] at h; exact absurd h (by simp)
    · rw [if_pos (by simp [h2])] at h
      intro c hc
      rw [← Option.some_inj.mp h] at hc
      exact (List.dropWhile_sublist isPySpace).mem hc

theorem parseAfterWs_good (rest t : List Char) (h : parseAfterWs rest = some t) :
    goodTitle t := by
  unfold parseAfterWs at h
  by_cases h1 : rest.takeWhile isPySpace = []
  · simp [h1] at h
  · rw [if_neg h1] at h
    by_cases h2 : rest.dropWhile isPySpace = []
    · rw [if_neg (by simp [h2])] at h
      by_cases h3 : 2 ≤ rest.length
      · rw [if_pos h3] at h
        cases hg : rest.getLast? with
        | none => rw [hg] at h; simp at h
        | some c =>
          rw [hg] at h
          simp only [Option.map_some'] at h
          refine Or.inr ⟨c, ?_, (Option.some_inj.mp h).symm⟩
          have hall := List.dropWhile_eq_nil_iff.mp h2
          exact hall c (List.mem_of_mem_getLast? hg)
      · rw [if_neg h3] at h; exact absurd h (by simp)
    · rw [if_pos (by simp [h2])] at h
      rw [← Option.some_inj.mp h]
      exact Or.inl ⟨h2, List.dropWhile_idempotent isPySpace rest⟩

theorem parseAfterWs_canonical (t : List Char) (h : goodTitle t) :
    parseAfterWs (' ' :: t) = some t := by
  have hsp : isPySpace ' ' = true := by decide
  rcases h with ⟨hne, hdrop⟩ | ⟨c, hc, hct⟩
  · unfold parseAfterWs
    rw [if_neg (by simp [List.takeWhile_cons, hsp])]
    rw [List.dropWhile_cons_of_pos hsp, hdrop, if_pos (by simpa using hne)]
  · subst hct
    unfold parseAfterWs
    rw [if_neg (by simp [List.takeWhile_cons, hsp])]
    rw [List.dropWhile_cons_of_pos hsp, List.dropWhile_cons_of_pos hc]
    simp

theorem takeWhile_mkHeading (m : Nat) (t : List Char) :
    ((mkHeading m t).takeWhile (fun c => c = '#')) = List.replicate m '#' := by
  unfold mkHeading
  rw [List.takeWhile_append_of_pos (by intro a ha; simp at ha; simp [ha])]
  simp [List.takeWhile_cons]

theorem dropWhile_mkHeading (m : Nat) (t : List Char) :
    ((mkHeading m t).dropWhile (fun c => c = '#')) = ' ' :: t := by
  unfold mkHeading
  rw [List.dropWhile_append_of_pos (by intro a ha; simp at ha; simp [ha])]
  simp [List.dropWhile_cons]

theorem parseHeading_mkHeading (m : Nat) (t : List Char) (h1 : 1 ≤ m) (h6 : m ≤ 6)
    (hg : goodTitle t) : parseHeading (mkHeading m t) = some (m, t) := by
  unfold parseHeading
  rw [takeWhile_mkHeading, dropWhile_mkHeading, List.length_replicate]
  rw [if_pos ⟨h1, h6⟩, parseAfterWs_canonical t hg]
  rfl

theorem parseHeading_good (l : List Char) (n : Nat) (t : List Char)
    (h : parseHeading l = some (n, t)) : 1 ≤ n ∧ n ≤ 6 ∧ goodTitle t := by
  unfold parseHeading at h
  by_cases hc : 1 ≤ (l.takeWhile (fun c => c = '#')).length ∧
      (l.takeWhile (fun c => c = '#')).length ≤ 6
  · rw [if_pos hc] at h
    cases hp : parseAfterWs (l.dropWhile (fun c => c = '#')) with
    | none => rw [hp] at h; simp at h
    | some t2 =>
      rw [hp] at h
      simp only [Option.map_some'] at h
      have h2 := Option.some_inj.mp h
      rw [Prod.mk.injEq] at h2
      refine ⟨h2.1 ▸ hc.1, h2.1 ▸ hc.2, h2.2 ▸ parseAfterWs_good _ t2 hp⟩
  · rw [if_neg hc] at h; exact absurd h (by simp)

theorem min_clamp (n d e : Nat) : min (min (n + d) 6 + e) 6 = min (n + d + e) 6 := by
  omega

theorem demoteLine_demoteLine (d e : Nat) (l : List Char) :
    demoteLine e (demoteLine d l) = demoteLine (d + e) l := by
  cases hp : parseHeading l with
  | none => simp [demoteLine, hp]
  | some p =>
    obtain ⟨n, t⟩ := p
    obtain ⟨h1, h6, hg⟩ := parseHeading_good l n t hp
    have hp2 : parseHeading (mkHeading (min (n + d) 6) t) = some (min (n + d) 6, t) :=
      parseHeading_mkHeading _ t (by omega) (by omega) hg
    have hp2' : demoteLine e (List.replicate (min (n + d) 6) '#' ++ ' ' :: t) =
        List.replicate (min (min (n + d) 6 + e) 6) '#' ++ ' ' :: t := by
      unfold demoteLine
      rw [show List.replicate (min (n + d) 6) '#' ++ ' ' :: t =
        mkHeading (min (n + d) 6) t from rfl, hp2]
    have hinner : demoteLine d l = List.replicate (min (n + d) 6) '#' ++ ' ' :: t := by
      unfold demoteLine; rw [hp]
    have houter : demoteLine (d + e) l = List.replicate (min (n + (d + e)) 6) '#' ++ ' ' :: t := by
      unfold demoteLine; rw [hp]
    have harith : min (min (n + d) 6 + e) 6 = min (n + (d + e)) 6 := by omega
    rw [hinner, hp2', houter, harith]

theorem mem_of_parseHeading (l : List Char) (n : Nat) (t : List Char)
    (h : parseHeading l = some (n, t)) : ∀ c ∈ t, c ∈ l := by
  unfold parseHeading at h
  by_cases hc : 1 ≤ (l.takeWhile (fun c => c = '#')).length ∧
      (l.takeWhile (fun c => c = '#')).length ≤ 6
  · rw [if_pos hc] at h
    cases hp : parseAfterWs (l.dropWhile (fun c => c = '#')) with
    | none => rw [hp] at h; simp at h
    | some t2 =>
      rw [hp] at h
      simp only [Option.map_some'] at h
      have h2 := Option.some_inj.mp h
      rw [Prod.mk.injEq] at h2
      intro c hct
      rw [← h2.2] at hct
      exact (List.dropWhile_sublist _).mem (mem_of_parseAfterWs _ t2 hp c hct)
  · rw [if_neg hc] at h; exact absurd h (by simp)

theorem demoteLine_no_newline (d : Nat) (l : List Char) (h : '\n' ∉ l) :
    '\n' ∉ demoteLine d l := by
  cases hp : parseHeading l with
  | none => simpa [demoteLine, hp] using h
  | some p =>
    obtain ⟨n, t⟩ := p
    simp only [demoteLine, hp]
    intro hmem
    rcases List.mem_append.mp hmem with h1 | h1
    · have := List.eq_of_mem_replicate h1
      exact absurd this (by decide)
    · rcases List.mem_cons.mp h1 with h2 | h2
      · exact absurd h2 (by decide)
      · exact h (mem_of_parseHeading l n t hp '\n' h2)

theorem demote_headings_compose (content : List Char) (d e : Nat) :
    demote_headings (demote_headings content d) e = demote_headings content (d + e) := by
  unfold demote_headings
  have hsplit : splitLines (joinLines ((splitLines content).map (demoteLine d))) =
      (splitLines content).map (demoteLine d) := by
    apply splitLines_joinLines
    · simp [splitLines, splitOnChar_ne_nil]
    · intro x hx
      rcases List.mem_map.mp hx with ⟨y, hy, hxy⟩
      exact hxy ▸ demoteLine_no_newline d y (not_sep_of_mem_splitOnChar '\n' content y hy)
  rw [hsplit, List.map_map]
  congr 1
  apply List.map_congr_left
  intro a _
  exact demoteLine_demoteLine d e a

/-- C8 (amended): for every content string and all deltas, demoting
headings by `d` and then by `e` equals demoting once by `d + e`; a
non-heading line passes through unchanged; any heading rank after
demotion is at most 6; and a heading already at rank 6 whose markers are
separated from the title by a single space is left unchanged by any
further demotion (the original claim fails only in that demotion
normalises a multi-character separator to one space). -/
theorem C8_demotion_algebra :
    (∀ content d e, demote_headings (demote_headings content d) e =
        demote_headings content (d + e))
    ∧ (∀ d line, parseHeading line = none → demoteLine d line = line)
    ∧ (∀ d line n t, parseHeading (demoteLine d line) = some (n, t) → n ≤ 6)
    ∧ (∀ d title, title.dropWhile isPySpace = title →
        demoteLine d (List.replicate 6 '#' ++ ' ' :: title) =
          List.replicate 6 '#' ++ ' ' :: title) := by
  refine ⟨demote_headings_compose, ?_, ?_, ?_⟩
  · intro d line h
    unfold demoteLine
    rw [h]
  · intro d line n t h
    exact (parseHeading_good _ n t h).2.1
  · intro d title hdrop
    by_cases hne : title = []
    · subst hne
      have hparse : parseHeading (mkHeading 6 []) = none := by decide
      unfold demoteLine
      rw [show List.replicate 6 '#' ++ ' ' :: ([] : List Char) = mkHeading 6 [] from rfl,
        hparse]
    · have hparse : parseHeading (mkHeading 6 title) = some (6, title) :=
        parseHeading_mkHeading 6 title (by omega) (by omega) (Or.inl ⟨hne, hdrop⟩)
      unfold demoteLine
      rw [show List.replicate 6 '#' ++ ' ' :: title = mkHeading 6 title from rfl, hparse]
      show List.replicate (min (6 + d) 6) '#' ++ ' ' :: title = mkHeading 6 title
      have : min (6 + d) 6 = 6 := by omega
      rw [this]
      rfl

/-- C8 witness: the amended algebra at concrete inputs. -/
theorem C8_demotion_algebra_witness :
    demote_headings (demote_headings "# a\ntext\n##### b".data 2) 3 =
        demote_headings "# a\ntext\n##### b".data 5
    ∧ demoteLine 1 "plain text".data = "plain text".data
    ∧ demoteLine 4 (List.replicate 6 '#' ++ ' ' :: "Title".data) =
        List.replicate 6 '#' ++ ' ' :: "Title".data := by
  refine ⟨?_, ?_, ?_⟩
  · have h := C8_demotion_algebra.1 "# a\ntext\n##### b".data 2 3
    simpa using h
  · exact C8_demotion_algebra.2.1 1 "plain text".data (by decide)
  · exact C8_demotion_algebra.2.2.2 4 "Title".data (by decide)

/-- C8 counterexample: `######\tx` is a heading already at rank 6, yet
demoting it changes the text (the tab separator is normalised to a
space), refuting "demoting a heading already at rank 6 never changes
it". -/
theorem C8_counterexample :
    parseHeading "######\tx".data = some (6, "x".data)
    ∧ demote_headings "######\tx".data 1 = "###### x".data
    ∧ demote_headings "######\tx".data 1 ≠ "######\tx".data := by
  decide

theorem extractAfter_eq_spec (target : List Char) (lines : List (List Char)) :
    extractAfter target lines =
      match lines.dropWhile (fun l => !(isHeadingTitled target l)) with
      | [] => none
      | hline :: rest => (parseHeading hline).map (fun p => (p.1, rest)) := by
  induction lines with
  | nil => simp [extractAfter]
  | cons l ls ih =>
    cases hp : parseHeading l with
    | none =>
      have ht : isHeadingTitled target l = false := by simp [isHeadingTitled, hp]
      simp only [extractAfter, hp, List.dropWhile_cons, ht]
      simpa using ih
    | some p =>
      obtain ⟨lvl, title⟩ := p
      by_cases hm : pyStrip title = target
      · have ht : isHeadingTitled target l = true := by
          simp [isHeadingTitled, hp, hm]
        simp only [extractAfter, hp, List.dropWhile_cons, ht]
        simp [hm, hp]
      · have ht : isHeadingTitled target l = false := by
          simp [isHeadingTitled, hp]
          exact hm
        simp only [extractAfter, hp, List.dropWhile_cons, ht]
        simp only [if_neg hm]
        simpa using ih

theorem takeSection_eq_spec (lvl : Nat) (ls : List (List Char)) :
    takeSection lvl ls = ls.takeWhile (fun l => !(stopsSection lvl l)) := by
  induction ls with
  | nil => simp [takeSection]
  | cons l ls ih =>
    cases hp : parseHeading l with
    | none =>
      have hs : stopsSection lvl l = false := by simp [stopsSection, hp]
      simp [takeSection, hp, List.takeWhile_cons, hs, ih]
    | some p =>
      obtain ⟨k, title⟩ := p
      by_cases hk : k ≤ lvl
      · have hs : stopsSection lvl l = true := by simp [stopsSection, hp, hk]
        simp [takeSection, hp, List.takeWhile_cons, hs, hk]
      · have hs : stopsSection lvl l = false := by simp [stopsSection, hp, hk]
        simp [takeSection, hp, List.takeWhile_cons, hs, hk, ih]

theorem extract_section_fst_eq_spec (content target : List Char)
    (stats : CompilationStats) :
    (extract_section content target stats).1 = extract_section_spec content target := by
  unfold extract_section extract_section_spec
  rw [extractAfter_eq_spec]
  cases hd : (splitLines content).dropWhile (fun l => !(isHeadingTitled target l)) with
  | nil => simp
  | cons hline rest =>
    cases hp : parseHeading hline with
    | none =>
      exfalso
      have hmem : isHeadingTitled target hline = true := by
        have := List.head?_dropWhile_not (fun l => !(isHeadingTitled target l))
          (splitLines content)
        rw [hd] at this
        simpa using this
      simp [isHeadingTitled, hp] at hmem
    | some p =>
      obtain ⟨lvl, title⟩ := p
      simp [hp, takeSection_eq_spec]

/-- C6: for every body and target title, the `extract_section` loop returns
exactly the declarative extraction — the lines strictly between the first
heading whose title equals the target (case-sensitive, title only,
regardless of rank) and the next heading of equal-or-higher rank, both
heading lines excluded; when no heading matches it returns `none` and
records the warning, a result distinct from the `some ""` produced by a
matched heading with no content (witnessed concretely by the last two
conjuncts). -/
theorem C6_section_extraction :
    (∀ content target stats,
      (extract_section content target stats).1 = extract_section_spec content target)
    ∧ (∀ content target stats, (extract_section content target stats).1 = none →
        (extract_section content target stats).2 =
          addWarning stats ("Section \x27".data ++ target ++ "\x27 not found".data))
    ∧ (∀ content target stats, (extract_section content target stats).1 ≠ none →
        (extract_section content target stats).2 = stats)
    ∧ (extract_section "# A".data "A".data stats0).1 = some []
    ∧ (extract_section "x\ny".data "A".data stats0).1 = none := by
  refine ⟨extract_section_fst_eq_spec, ?_, ?_, by decide, by decide⟩
  · intro content target stats h
    unfold extract_section at h ⊢
    cases he : extractAfter target (splitLines content) with
    | none => rfl
    | some p => rw [he] at h; simp at h
  · intro content target stats h
    unfold extract_section at h ⊢
    cases he : extractAfter target (splitLines content) with
    | none => rw [he] at h; simp at h
    | some p => rfl

/-- C6 witness: the loop-versus-spec equality, the warning on a missing
section, and the untouched statistics on a found section, at concrete
inputs. -/
theorem C6_section_extraction_witness :
    (extract_section "# A\nbody".data "A".data stats0).1 =
        extract_section_spec "# A\nbody".data "A".data
    ∧ (extract_section "x".data "A".data stats0).2 =
        addWarning stats0 "Section \x27A\x27 not found".data
    ∧ (extract_section "# A\nbody".data "A".data stats0).2 = stats0 := by
  refine ⟨C6_section_extraction.1 "# A\nbody".data "A".data stats0, ?_, ?_⟩
  · have h := C6_section_extraction.2.1 "x".data "A".data stats0 (by decide)
    simpa using h
  · exact C6_section_extraction.2.2.1 "# A\nbody".data "A".data stats0 (by decide)

theorem infix_append_right (X t Y : List Char) (h : t <:+: Y) : t <:+: X ++ Y :=
  h.trans (List.suffix_append X Y).isInfix

theorem infix_append_left (F S t : List Char) (h : t <:+: F) : t <:+: F ++ S :=
  h.trans (List.prefix_append F S).isInfix

/-- C5: for every table block with a header and a separator line, the
separator is discarded without being inspected (the output is invariant
under replacing it); a data row whose cell count differs from the
header's is dropped entirely, leaving the output of the block without it;
and every data row with exactly the header's cell count appears in the
output, its cells joined with the cell separator and terminated by the
row terminator.  The conversion takes no statistics, so nothing is ever
warned. -/
theorem C5_table_conversion :
    (∀ hd sep sep2 rows,
      convertTableBlock (hd :: sep :: rows) = convertTableBlock (hd :: sep2 :: rows))
    ∧ (∀ hd sep rows1 r rows2,
        (tableCells r).length ≠ (tableCells hd).length →
        convertTableBlock (hd :: sep :: (rows1 ++ r :: rows2)) =
          convertTableBlock (hd :: sep :: (rows1 ++ rows2)))
    ∧ (∀ hd sep rows r, r ∈ rows →
        (tableCells r).length = (tableCells hd).length →
        (joinWith " & ".data (tableCells r) ++ " \\\\\n".data) <:+:
          convertTableBlock (hd :: sep :: rows)) := by
  refine ⟨?_, ?_, ?_⟩
  · intro hd sep sep2 rows
    rfl
  · intro hd sep rows1 r rows2 h
    have hf : ((tableCells r).length == (tableCells hd).length) = false := by
      simpa using h
    simp only [convertTableBlock, List.map_append, List.filter_append, List.map_cons,
      List.filter_cons, hf]
    simp
  · intro hd sep rows r hmem hlen
    have ht : ((tableCells r).length == (tableCells hd).length) = true := by
      simpa using hlen
    have hmem2 : tableCells r ∈ (rows.map tableCells).filter
        (fun c => c.length == (tableCells hd).length) :=
      List.mem_filter.mpr ⟨List.mem_map_of_mem tableCells hmem, ht⟩
    have hmem3 : joinWith " & ".data (tableCells r) ++ " \\\\\n".data ∈
        ((rows.map tableCells).filter (fun c => c.length == (tableCells hd).length)).map
          (fun c => joinWith " & ".data c ++ " \\\\\n".data) :=
      List.mem_map_of_mem _ hmem2
    have hinf := List.infix_of_mem_flatten hmem3
    simp only [convertTableBlock]
    apply infix_append_left
    apply infix_append_right
    exact hinf

/-- C5 witness: the three properties at a concrete table block (header of
two cells, one three-cell row dropped, one two-cell row kept). -/
theorem C5_table_conversion_witness :
    convertTableBlock ["| a | b |".data, "|---|---|".data, "| 1 | 2 |".data]
      = convertTableBlock ["| a | b |".data, "|anything|".data, "| 1 | 2 |".data]
    ∧ convertTableBlock ["| a | b |".data, "|---|---|".data,
        "| x | y | z |".data, "| 1 | 2 |".data]
      = convertTableBlock ["| a | b |".data, "|---|---|".data, "| 1 | 2 |".data]
    ∧ (joinWith " & ".data (tableCells "| 1 | 2 |".data) ++ " \\\\\n".data) <:+:
        convertTableBlock ["| a | b |".data, "|---|---|".data,
          "| x | y | z |".data, "| 1 | 2 |".data] := by
  refine ⟨?_, ?_, ?_⟩
  · exact C5_table_conversion.1 "| a | b |".data "|---|---|".data "|anything|".data
      ["| 1 | 2 |".data]
  · have h := C5_table_conversion.2.1 "| a | b |".data "|---|---|".data []
      "| x | y | z |".data ["| 1 | 2 |".data] (by decide)
    simpa using h
  · exact C5_table_conversion.2.2 "| a | b |".data "|---|---|".data
      ["| x | y | z |".data, "| 1 | 2 |".data] "| 1 | 2 |".data (by decide) (by decide)

/-- C3 (amended): every heading line of rank 1-6 becomes a sectioning
command followed immediately by the label `sec:` plus the lowercased,
space-to-underscore title; ranks 1-3 map to three distinct commands
(section, subsection, subsubsection), rank 4 maps to `paragraph`, and
only ranks 5 and 6 collapse to the deepest command `subparagraph` (the
original claim's "ranks 4-6 all collapse to the single deepest command"
does not hold of rank 4). -/
theorem C3_heading_translation :
    (∀ lvl title, 1 ≤ lvl → lvl ≤ 6 → title ≠ [] →
      title.dropWhile isPySpace = title →
      convertHeadingLine (mkHeading lvl title) =
        '\\' :: heading_map lvl ++ "\x7b".data ++ title ++ "\x7d\\label\x7bsec:".data ++
          pyReplace ' ' '_' (title.map Char.toLower) ++ "\x7d".data)
    ∧ heading_map 1 ≠ heading_map 2 ∧ heading_map 1 ≠ heading_map 3
    ∧ heading_map 2 ≠ heading_map 3
    ∧ heading_map 4 = "paragraph".data ∧ heading_map 5 = "subparagraph".data
    ∧ heading_map 6 = "subparagraph".data := by
  refine ⟨?_, by decide, by decide, by decide, by decide, by decide, by decide⟩
  intro lvl title h1 h6 hne hdrop
  unfold convertHeadingLine
  rw [parseHeading_mkHeading lvl title h1 h6 (Or.inl ⟨hne, hdrop⟩)]
  rfl

/-- C3 witness: the amended mapping at rank 4 with a two-word title. -/
theorem C3_heading_translation_witness :
    convertHeadingLine (mkHeading 4 "The Title".data) =
      '\\' :: heading_map 4 ++ "\x7b".data ++ "The Title".data ++
        "\x7d\\label\x7bsec:".data ++
        pyReplace ' ' '_' ("The Title".data.map Char.toLower) ++ "\x7d".data :=
  C3_heading_translation.1 4 "The Title".data (by decide) (by decide) (by decide)
    (by decide)

/-- C3 counterexample: ranks 4 and 5 with the same title produce different
sectioning commands (`\paragraph` versus `\subparagraph`), so ranks 4-6 do
not collapse to a single command. -/
theorem C3_counterexample :
    convertHeadingLine "#### T".data = "\\paragraph\x7bT\x7d\\label\x7bsec:t\x7d".data
    ∧ convertHeadingLine "##### T".data =
        "\\subparagraph\x7bT\x7d\\label\x7bsec:t\x7d".data
    ∧ convertHeadingLine "#### T".data ≠ convertHeadingLine "##### T".data := by
  decide

theorem parseEmbedRef_mkEmbedTok (name : List Char) (hw : wfEmbedName name) :
    parseEmbedRef (mkEmbedTok name) = some (name, none) := by
  obtain ⟨hne, _hstrip, hchars⟩ := hw
  have hpos : ∀ c ∈ name, (c != ']' && c != '#') = true := by
    intro c hc
    obtain ⟨h1, h2⟩ := hchars c hc
    simp [h1, h2]
  show parseEmbedRef ('!' :: '[' :: '[' :: (name ++ [']', ']'])) = some (name, none)
  simp only [parseEmbedRef]
  rw [List.takeWhile_append_of_pos hpos, List.dropWhile_append_of_pos hpos]
  simp [hne]

theorem matchEmbedAt_mkEmbedTok (name : List Char) (hne : name ≠ [])
    (hchars : ∀ c ∈ name, c ≠ ']') :
    matchEmbedAt (mkEmbedTok name) = some (mkEmbedTok name, []) := by
  have hpos : ∀ c ∈ name, (c != ']') = true := by
    intro c hc
    simp [hchars c hc]
  show matchEmbedAt ('!' :: '[' :: '[' :: (name ++ [']', ']'])) = some (mkEmbedTok name, [])
  simp only [matchEmbedAt]
  rw [List.takeWhile_append_of_pos hpos, List.dropWhile_append_of_pos hpos]
  simp [hne, mkEmbedTok]

theorem matchWikiAt_mkWikiTok (name : List Char) (hw : wfLinkName name) :
    matchWikiAt (mkWikiTok name) = some ((name, none, none), []) := by
  obtain ⟨hne, _hstrip, hchars⟩ := hw
  have hpos : ∀ c ∈ name, (c != ']' && c != '#' && c != '|') = true := by
    intro c hc
    obtain ⟨h1, h2, h3⟩ := hchars c hc
    simp [h1, h2, h3]
  show matchWikiAt ('[' :: '[' :: (name ++ [']', ']'])) = some ((name, none, none), [])
  simp only [matchWikiAt]
  rw [List.takeWhile_append_of_pos hpos, List.dropWhile_append_of_pos hpos]
  simp [hne]

theorem scanSt_single {σ τ : Type} (tryf : List Char → Option (τ × List Char))
    (act : τ → σ → List Char × σ) (s : List Char) (tok : τ) (st : σ)
    (h : tryf s = some (tok, [])) (hne : s ≠ []) :
    scanSt tryf act s.length s st = act tok st := by
  cases s with
  | nil => exact absurd rfl hne
  | cons c cs =>
    show scanSt tryf act (cs.length + 1) (c :: cs) st = act tok st
    unfold scanSt
    rw [h]
    simp only []
    cases hl : cs.length with
    | zero => simp [scanSt]
    | succ k => simp [scanSt]

theorem resolve_embed_dup (vault : Vault) (name : List Char) (lvl ln : Nat)
    (ps : ParserState) (hw : wfEmbedName name) (hmem : name ∈ ps.embedded_files) :
    resolve_embed vault (mkEmbedTok name) lvl ln ps =
      ([], { ps with stats := addWarning ps.stats ("Duplicate embed skipped: ".data ++ name ++ " (line ".data ++ natChars ln ++ ")".data) }) := by
  unfold resolve_embed
  rw [parseEmbedRef_mkEmbedTok name hw]
  simp only [Option.map_none', optNorm, hw.2.1]
  rw [if_pos hmem]

theorem resolve_embed_missing (vault : Vault) (name : List Char) (lvl ln : Nat)
    (ps : ParserState) (hw : wfEmbedName name)
    (hfind : find_file vault name = none) (hmem : name ∉ ps.embedded_files) :
    resolve_embed vault (mkEmbedTok name) lvl ln ps =
      ("[MISSING: ".data ++ name ++ "]".data,
       ⟨name :: ps.embedded_files,
        addWarning { ps.stats with files_embedded := addToSet name ps.stats.files_embedded } ("Missing file: ".data ++ name ++ ".md (line ".data ++ natChars ln ++ ")".data)⟩) := by
  unfold resolve_embed
  rw [parseEmbedRef_mkEmbedTok name hw]
  simp only [Option.map_none', optNorm, hw.2.1]
  rw [if_neg hmem, hfind]

theorem parseEmbedRef_mkEmbedTokSec (name sec : List Char) (hw : wfEmbedName name)
    (hs : wfSecName sec) :
    parseEmbedRef (mkEmbedTokSec name sec) = some (name, some sec) := by
  obtain ⟨hne, _hstrip, hchars⟩ := hw
  obtain ⟨hsne, _hsstrip, hschars⟩ := hs
  have hpos : ∀ c ∈ name, (c != ']' && c != '#') = true := by
    intro c hc
    obtain ⟨h1, h2⟩ := hchars c hc
    simp [h1, h2]
  have hspos : ∀ c ∈ sec, (c != ']') = true := by
    intro c hc
    simp [hschars c hc]
  have h1 : (name ++ '#' :: (sec ++ [']', ']'])).takeWhile
      (fun c => c != ']' && c != '#') = name := by
    rw [List.takeWhile_append_of_pos hpos]
    simp [List.takeWhile_cons]
  have h2 : (name ++ '#' :: (sec ++ [']', ']'])).dropWhile
      (fun c => c != ']' && c != '#') = '#' :: (sec ++ [']', ']']) := by
    rw [List.dropWhile_append_of_pos hpos]
    simp [List.dropWhile_cons]
  have h3 : (sec ++ [']', ']']).takeWhile (fun c => c != ']') = sec := by
    rw [List.takeWhile_append_of_pos hspos]
    simp [List.takeWhile_cons]
  have h4 : (sec ++ [']', ']']).dropWhile (fun c => c != ']') = [']', ']'] := by
    rw [List.dropWhile_append_of_pos hspos]
    simp [List.dropWhile_cons]
  show parseEmbedRef ('!' :: '[' :: '[' :: (name ++ '#' :: (sec ++ [']', ']']))) =
    some (name, some sec)
  simp only [parseEmbedRef]
  rw [h1, h2]
  rw [if_neg (by simpa using hne)]
  simp [h3, h4, hsne]

theorem resolve_embed_dup_sec (vault : Vault) (name sec : List Char) (lvl ln : Nat)
    (ps : ParserState) (hw : wfEmbedName name) (hs : wfSecName sec)
    (hmem : (name ++ '#' :: sec) ∈ ps.embedded_files) :
    resolve_embed vault (mkEmbedTokSec name sec) lvl ln ps =
      ([], { ps with stats := addWarning ps.stats ("Duplicate embed skipped: ".data ++ (name ++ '#' :: sec) ++ " (line ".data ++ natChars ln ++ ")".data) }) := by
  unfold resolve_embed
  rw [parseEmbedRef_mkEmbedTokSec name sec hw hs]
  have hopt : optNorm (some (pyStrip sec)) = some sec := by
    rw [hs.2.1]
    simp [optNorm, hs.1]
  simp only [Option.map_some', hopt, hw.2.1]
  rw [if_pos hmem]

theorem replace_link_internal (cfg : Config) (cs : ConvState) (name : List Char)
    (hw : wfLinkName name) (hmem : name ∈ cs.stats.files_embedded)
    (hlab : cs.section_labels = []) :
    replace_link cfg (name, none, none) cs =
      ("\\hyperref[".data ++ ("sec:".data ++ pyReplace ' ' '_' name) ++ "]\x7b".data ++ name ++ "\x7d".data,
       { cs with stats := { cs.stats with internal_links := cs.stats.internal_links + 1 } }) := by
  unfold replace_link
  simp only [Option.map_none', optNorm, hw.2.1, hlab]
  rw [if_pos (Or.inl hmem)]
  rfl

theorem replace_link_internal_disp (cfg : Config) (cs : ConvState)
    (name d : List Char) (hw : wfLinkName name) (hd1 : pyStrip d = d) (hd2 : d ≠ [])
    (hmem : name ∈ cs.stats.files_embedded) (hlab : cs.section_labels = []) :
    replace_link cfg (name, none, some d) cs =
      ("\\hyperref[".data ++ ("sec:".data ++ pyReplace ' ' '_' name) ++ "]\x7b".data ++ d ++ "\x7d".data,
       { cs with stats := { cs.stats with internal_links := cs.stats.internal_links + 1 } }) := by
  unfold replace_link
  have hopt : optNorm (some (pyStrip d)) = some d := by
    rw [hd1]
    simp [optNorm, hd2]
  have hoptn : optNorm (none : Option (List Char)) = none := rfl
  simp only [Option.map_some', Option.map_none', hopt, hoptn, hw.2.1, hlab]
  rw [if_pos (Or.inl hmem)]
  rfl

theorem replace_link_external (cfg : Config) (cs : ConvState) (name : List Char)
    (hw : wfLinkName name) (hmem : name ∉ cs.stats.files_embedded) :
    replace_link cfg (name, none, none) cs = (external_link cfg name none name, cs) := by
  unfold replace_link
  simp only [Option.map_none', optNorm, hw.2.1]
  rw [if_neg (fun h => h.elim hmem hmem)]

theorem convert_wikilinks_tok (cfg : Config) (cs : ConvState) (name : List Char)
    (hw : wfLinkName name) :
    convert_wikilinks cfg (mkWikiTok name) cs = replace_link cfg (name, none, none) cs := by
  unfold convert_wikilinks
  exact scanSt_single matchWikiAt (replace_link cfg) (mkWikiTok name) (name, none, none)
    cs (matchWikiAt_mkWikiTok name hw) (by simp [mkWikiTok])

theorem mem_addToSet (x : List Char) (l : List (List Char)) : x ∈ addToSet x l := by
  unfold addToSet
  split
  · assumption
  · exact List.mem_cons_self x l

/-- C4: resolving an embed whose (name, section) key is already in the
duplicate set substitutes empty text and records exactly one warning
naming the key and the occurrence's line number — both for a bare key and
for a section-qualified key; and in a run embedding the same file twice,
the first occurrence's content appears exactly once in the resolved
output, with the single duplicate warning recorded for line 2. -/
theorem C4_duplicate_key :
    (∀ vault name lvl ln ps, wfEmbedName name → name ∈ ps.embedded_files →
      resolve_embed vault (mkEmbedTok name) lvl ln ps =
        ([], { ps with stats := addWarning ps.stats ("Duplicate embed skipped: ".data ++ name ++ " (line ".data ++ natChars ln ++ ")".data) }))
    ∧ (∀ vault name sec lvl ln ps, wfEmbedName name → wfSecName sec →
        (name ++ '#' :: sec) ∈ ps.embedded_files →
        resolve_embed vault (mkEmbedTokSec name sec) lvl ln ps =
          ([], { ps with stats := addWarning ps.stats ("Duplicate embed skipped: ".data ++ (name ++ '#' :: sec) ++ " (line ".data ++ natChars ln ++ ")".data) }))
    ∧ process_embeds [("A".data, "hello".data)] "![[A]]\n![[A]]".data ⟨[], stats0⟩ =
        ("hello\n".data,
         ⟨["A".data], ⟨["A".data], 1, [], 0, ["Duplicate embed skipped: A (line 2)".data]⟩⟩) :=
  ⟨fun vault name lvl ln ps hw hm => resolve_embed_dup vault name lvl ln ps hw hm,
   fun vault name sec lvl ln ps hw hs hm =>
     resolve_embed_dup_sec vault name sec lvl ln ps hw hs hm,
   by decide⟩

/-- C4 witness: the duplicate behaviour at concrete inputs (bare and
section-qualified keys already present in the duplicate set). -/
theorem C4_duplicate_key_witness :
    resolve_embed [] (mkEmbedTok "A".data) 0 2 ⟨["A".data], stats0⟩ =
      ([], { embedded_files := ["A".data],
             stats := addWarning stats0 ("Duplicate embed skipped: ".data ++ "A".data ++ " (line ".data ++ natChars 2 ++ ")".data) })
    ∧ resolve_embed [] (mkEmbedTokSec "A".data "S".data) 0 3 ⟨["A#S".data], stats0⟩ =
      ([], { embedded_files := ["A#S".data],
             stats := addWarning stats0 ("Duplicate embed skipped: ".data ++ ("A".data ++ '#' :: "S".data) ++ " (line ".data ++ natChars 3 ++ ")".data) }) := by
  constructor
  · exact C4_duplicate_key.1 [] "A".data 0 2 ⟨["A".data], stats0⟩ (by decide) (by decide)
  · exact C4_duplicate_key.2.1 [] "A".data "S".data 0 3 ⟨["A#S".data], stats0⟩
      (by decide) (by decide) (by decide)

/-- C9: a missing-file embed records the key in the duplicate set and the
file name in the embedded-files statistics before substituting the
missing-file marker; consequently a second embed of the same missing file
yields empty text with a duplicate warning, and a later `[[name]]` link
is classified internal by the link translator (incrementing the
internal-link counter). -/
theorem C9_missing_file_side_effects :
    (∀ vault name lvl ln ps, wfEmbedName name → find_file vault name = none →
      name ∉ ps.embedded_files →
      resolve_embed vault (mkEmbedTok name) lvl ln ps =
        ("[MISSING: ".data ++ name ++ "]".data,
         ⟨name :: ps.embedded_files,
          addWarning { ps.stats with files_embedded := addToSet name ps.stats.files_embedded } ("Missing file: ".data ++ name ++ ".md (line ".data ++ natChars ln ++ ")".data)⟩))
    ∧ (∀ vault name lvl ln ln2 ps, wfEmbedName name → find_file vault name = none →
        name ∉ ps.embedded_files →
        resolve_embed vault (mkEmbedTok name) lvl ln2
            (resolve_embed vault (mkEmbedTok name) lvl ln ps).2 =
          ([], { (resolve_embed vault (mkEmbedTok name) lvl ln ps).2 with
              stats := addWarning (resolve_embed vault (mkEmbedTok name) lvl ln ps).2.stats ("Duplicate embed skipped: ".data ++ name ++ " (line ".data ++ natChars ln2 ++ ")".data) }))
    ∧ (∀ vault name lvl ln ps, wfEmbedName name → find_file vault name = none →
        name ∉ ps.embedded_files →
        name ∈ (resolve_embed vault (mkEmbedTok name) lvl ln ps).2.stats.files_embedded)
    ∧ (∀ cfg cs name, wfLinkName name → name ∈ cs.stats.files_embedded →
        cs.section_labels = [] →
        convert_wikilinks cfg (mkWikiTok name) cs =
          ("\\hyperref[".data ++ ("sec:".data ++ pyReplace ' ' '_' name) ++ "]\x7b".data ++ name ++ "\x7d".data,
           { cs with stats := { cs.stats with internal_links := cs.stats.internal_links + 1 } })) := by
  refine ⟨resolve_embed_missing, ?_, ?_, ?_⟩
  · intro vault name lvl ln ln2 ps hw hfind hmem
    rw [resolve_embed_missing vault name lvl ln ps hw hfind hmem]
    exact resolve_embed_dup vault name lvl ln2 _ hw (List.mem_cons_self _ _)
  · intro vault name lvl ln ps hw hfind hmem
    rw [resolve_embed_missing vault name lvl ln ps hw hfind hmem]
    exact mem_addToSet name ps.stats.files_embedded
  · intro cfg cs name hw hmem hlab
    rw [convert_wikilinks_tok cfg cs name hw]
    exact replace_link_internal cfg cs name hw hmem hlab

/-- C9 witness: the missing-file side effects, the duplicate collapse and
the internal classification at concrete inputs. -/
theorem C9_missing_file_side_effects_witness :
    resolve_embed [] (mkEmbedTok "World".data) 0 1 ⟨[], stats0⟩ =
      ("[MISSING: ".data ++ "World".data ++ "]".data,
       ⟨["World".data],
        addWarning { stats0 with files_embedded := addToSet "World".data [] } ("Missing file: ".data ++ "World".data ++ ".md (line ".data ++ natChars 1 ++ ")".data)⟩)
    ∧ resolve_embed [] (mkEmbedTok "World".data) 0 2
          (resolve_embed [] (mkEmbedTok "World".data) 0 1 ⟨[], stats0⟩).2 =
        ([], { (resolve_embed [] (mkEmbedTok "World".data) 0 1 ⟨[], stats0⟩).2 with
            stats := addWarning (resolve_embed [] (mkEmbedTok "World".data) 0 1 ⟨[], stats0⟩).2.stats ("Duplicate embed skipped: ".data ++ "World".data ++ " (line ".data ++ natChars 2 ++ ")".data) })
    ∧ "World".data ∈
        (resolve_embed [] (mkEmbedTok "World".data) 0 1 ⟨[], stats0⟩).2.stats.files_embedded
    ∧ convert_wikilinks ⟨"V".data, true, "/v".data, []⟩ (mkWikiTok "World".data)
          ⟨⟨["World".data], 0, [], 0, []⟩, 0, []⟩ =
        ("\\hyperref[".data ++ ("sec:".data ++ pyReplace ' ' '_' "World".data) ++ "]\x7b".data ++ "World".data ++ "\x7d".data,
         { stats := ⟨["World".data], 0, [], 1, []⟩, label_counter := 0, section_labels := [] }) := by
  refine ⟨?_, ?_, ?_, ?_⟩
  · exact C9_missing_file_side_effects.1 [] "World".data 0 1 ⟨[], stats0⟩
      (by decide) (by decide) (by decide)
  · exact C9_missing_file_side_effects.2.1 [] "World".data 0 1 2 ⟨[], stats0⟩
      (by decide) (by decide) (by decide)
  · exact C9_missing_file_side_effects.2.2.1 [] "World".data 0 1 ⟨[], stats0⟩
      (by decide) (by decide) (by decide)
  · have h := C9_missing_file_side_effects.2.2.2 ⟨"V".data, true, "/v".data, []⟩
      ⟨⟨["World".data], 0, [], 0, []⟩, 0, []⟩ "World".data (by decide) (by decide) rfl
    simpa using h

/-- C7: for any statistics state with `Intro` in the embedded-files set,
the link `[[Intro|See it]]` becomes an internal cross-reference whose
display text is `See it`, incrementing the internal-link counter by
exactly one; for any state without `Nowhere`, the link `[[Nowhere]]`
becomes the external reference form and leaves the counter (and the whole
state) unchanged. -/
theorem C7_link_classification :
    (∀ cfg cs, "Intro".data ∈ cs.stats.files_embedded → cs.section_labels = [] →
      convert_wikilinks cfg "[[Intro|See it]]".data cs =
        ("\\hyperref[sec:Intro]\x7bSee it\x7d".data,
         { cs with stats := { cs.stats with internal_links := cs.stats.internal_links + 1 } }))
    ∧ (∀ cfg cs, "Nowhere".data ∉ cs.stats.files_embedded →
        convert_wikilinks cfg "[[Nowhere]]".data cs =
          (external_link cfg "Nowhere".data none "Nowhere".data, cs)) := by
  constructor
  · intro cfg cs hmem hlab
    have hm : matchWikiAt "[[Intro|See it]]".data =
        some (("Intro".data, none, some "See it".data), []) := by decide
    have h1 : convert_wikilinks cfg "[[Intro|See it]]".data cs =
        replace_link cfg ("Intro".data, none, some "See it".data) cs := by
      unfold convert_wikilinks
      exact scanSt_single matchWikiAt (replace_link cfg) _ _ cs hm (by decide)
    rw [h1, replace_link_internal_disp cfg cs "Intro".data "See it".data
      (by decide) (by decide) (by decide) hmem hlab]
    rfl
  · intro cfg cs hmem
    have hm : matchWikiAt "[[Nowhere]]".data =
        some (("Nowhere".data, none, none), []) := by decide
    have h1 : convert_wikilinks cfg "[[Nowhere]]".data cs =
        replace_link cfg ("Nowhere".data, none, none) cs := by
      unfold convert_wikilinks
      exact scanSt_single matchWikiAt (replace_link cfg) _ _ cs hm (by decide)
    rw [h1, replace_link_external cfg cs "Nowhere".data (by decide) hmem]

/-- C7 witness: the two classifications at a concrete state embedding
exactly `Intro`. -/
theorem C7_link_classification_witness :
    convert_wikilinks ⟨"MyVault".data, true, "/vault".data, []⟩ "[[Intro|See it]]".data
        ⟨⟨["Intro".data], 0, [], 0, []⟩, 0, []⟩ =
      ("\\hyperref[sec:Intro]\x7bSee it\x7d".data, ⟨⟨["Intro".data], 0, [], 1, []⟩, 0, []⟩)
    ∧ convert_wikilinks ⟨"MyVault".data, true, "/vault".data, []⟩ "[[Nowhere]]".data
        ⟨⟨["Intro".data], 0, [], 0, []⟩, 0, []⟩ =
      (external_link ⟨"MyVault".data, true, "/vault".data, []⟩ "Nowhere".data none
        "Nowhere".data, ⟨⟨["Intro".data], 0, [], 0, []⟩, 0, []⟩) := by
  constructor
  · have h := C7_link_classification.1 ⟨"MyVault".data, true, "/vault".data, []⟩
      ⟨⟨["Intro".data], 0, [], 0, []⟩, 0, []⟩ (by decide) rfl
    simpa using h
  · exact C7_link_classification.2 ⟨"MyVault".data, true, "/vault".data, []⟩
      ⟨⟨["Intro".data], 0, [], 0, []⟩, 0, []⟩ (by decide)

/-- C10: the embed pattern of `process_embeds` matches every well-formed
`![[...]]` token, image names included; the embed pass therefore replaces
a double-bracket image embed with no corresponding note file by the
missing-file marker and records its key, and in the composed pipeline —
embed resolution before image translation — the image pass never sees the
token: no image is copied and no `includegraphics` command is emitted,
even with `pic.png` present in the attachments folder. -/
theorem C10_embed_before_images :
    (∀ name, wfEmbedName name →
      matchEmbedAt (mkEmbedTok name) = some (mkEmbedTok name, []))
    ∧ process_embeds [] "![[pic.png]]".data ⟨[], stats0⟩ =
        ("[MISSING: pic.png]".data,
         ⟨["pic.png".data],
          ⟨["pic.png".data], 0, [], 0, ["Missing file: pic.png.md (line 1)".data]⟩⟩)
    ∧ compile_pipeline [] ⟨"MyVault".data, true, "/vault".data, ["pic.png".data]⟩
          "![[pic.png]]".data =
        ("[MISSING: pic.png]".data,
         ⟨["pic.png".data], 0, [], 0, ["Missing file: pic.png.md (line 1)".data]⟩)
    ∧ findSub "includegraphics".data
        (compile_pipeline [] ⟨"MyVault".data, true, "/vault".data, ["pic.png".data]⟩
          "![[pic.png]]".data).1 = none := by
  refine ⟨?_, by decide, by decide, by decide⟩
  intro name hw
  exact matchEmbedAt_mkEmbedTok name hw.1 (fun c hc => (hw.2.2 c hc).1)

/-- C10 witness: the matcher conjunct at the concrete image-embed token. -/
theorem C10_embed_before_images_witness :
    matchEmbedAt (mkEmbedTok "pic.png".data) = some (mkEmbedTok "pic.png".data, []) :=
  C10_embed_before_images.1 "pic.png".data (by decide)

/-- C1 counterexample: in the claimed scenario the resolver expands one
level only — the output keeps the literal token `![[World]]`, no
missing-file marker is produced and no warnings at all are recorded
(the claim demands a marker for `World` and two warnings). -/
theorem C1_counterexample :
    (process_embeds [("Intro".data, "# Intro\nHello ![[World]]".data)]
        "![[Intro]]".data ⟨[], stats0⟩).1 = "## Intro\nHello ![[World]]".data
    ∧ (process_embeds [("Intro".data, "# Intro\nHello ![[World]]".data)]
        "![[Intro]]".data ⟨[], stats0⟩).2.stats.warnings = []
    ∧ findSub "[MISSING".data
        (process_embeds [("Intro".data, "# Intro\nHello ![[World]]".data)]
          "![[Intro]]".data ⟨[], stats0⟩).1 = none := by
  decide

/-- C1 (amended): with `Intro.md` holding `# Intro\nHello ![[World]]` and
`World.md` absent, resolving the master body `![[Intro]]` produces the
`Intro` heading demoted to second level followed by the literal text
`Hello ` followed by the still-unexpanded embed token `![[World]]`; no
warnings are recorded, because the resolver expands embeds one level per
pass and never rescans substituted content, so the missing file is never
noticed. -/
theorem C1_one_level_embedding :
    process_embeds [("Intro".data, "# Intro\nHello ![[World]]".data)]
        "![[Intro]]".data ⟨[], stats0⟩ =
      ("## Intro\nHello ![[World]]".data,
       ⟨["Intro".data], ⟨["Intro".data], 1, [], 0, []⟩⟩) := by
  decide

/-- C2 (code bug): for the document holding only the fenced code block
with interior `hello`, the full translation does not preserve the
interior inside a verbatim block — the inline-code pass, which runs
before the fenced-code pass, consumes a backtick pair out of the fences
and yields ```` ``\texttt{\nhello\n}`` ````, with no verbatim block at
all.  The fenced-code pass alone (third conjunct) would have translated
the document correctly, pinpointing the defect in the pass ordering
interaction. -/
theorem C2_code_fence_mangled :
    (convert_markdown_to_latex ⟨"MyVault".data, true, "/vault".data, []⟩
        "```\nhello\n```".data ⟨stats0, 0, []⟩).1 = "``\\texttt\x7b\nhello\n\x7d``".data
    ∧ findSub "\\begin\x7bverbatim\x7d".data
        (convert_markdown_to_latex ⟨"MyVault".data, true, "/vault".data, []⟩
          "```\nhello\n```".data ⟨stats0, 0, []⟩).1 = none
    ∧ convert_code_blocks "```\nhello\n```".data =
        "\\begin\x7bverbatim\x7d\nhello\n\n\\end\x7bverbatim\x7d".data := by
  decide
